import Mathlib

/-!
Verification of the workplace-reviews comment pipeline.

The development shallowly embeds the pure data transformations of the
repository: `docx_to_csv.string_to_df` (comment extraction from the raw
DOCX text), `utils.break_into_sentences` (sentence explosion),
`utils.count_duplicates` (overlap percentage of two comment tables),
`utils.topic_aggregation` (topic-subset export) and the session/state
logic of `app.App` (`_update_button_states`, `_csv_subset`).

Python strings are modelled as `List Char`; Python `str.strip` is
modelled over the ASCII whitespace characters (the only ones the inputs
of this pipeline contain).  Pandas dataframes are modelled as a header
(list of column labels) plus a list of rows (lists of cell values).
-/

namespace WorkCulture

/-- Characters treated as whitespace by `str.strip` (ASCII fragment). -/
def isSpace (c : Char) : Bool :=
  c = ' ' || c = '\t' || c = '\n' || c = '\r' || c = '\x0b' || c = '\x0c'

/-- Python `s.strip()`: drop leading and trailing whitespace. -/
def pyStrip (s : List Char) : List Char :=
  ((s.dropWhile isSpace).reverse.dropWhile isSpace).reverse

/-- Split a string on every occurrence of a single character separator,
mirroring `re.split` with a one-character pattern: `"a\n\nb"` gives
`["a", "", "b"]` and a trailing separator yields a trailing `""`. -/
def splitOnChar (sep : Char) : List Char → List (List Char)
  | [] => [[]]
  | c :: rest =>
    let r := splitOnChar sep rest
    if c = sep then [] :: r
    else
      match r with
      | [] => [[c]]
      | h :: t => (c :: h) :: t

/-- Text after the first occurrence of the two-character separator
`". "`, if any (the splitting step of `comment.split(". ", 1)`). -/
def afterDotSpace : List Char → Option (List Char)
  | [] => none
  | '.' :: ' ' :: rest => some rest
  | _ :: rest => afterDotSpace rest

/-- Python `comment.split(". ", 1)[-1]`: the text after the first
`". "` when one occurs, otherwise the whole string. -/
def split1Last (s : List Char) : List Char :=
  (afterDotSpace s).getD s

/-- The literal part of the section-marker pattern `Comments: \(\d+\)`. -/
def markerHead : List Char := "Comments: (".data

/-- If `pat` is a leading segment of `s`, return the rest of `s`. -/
def startsWithSeq : List Char → List Char → Option (List Char)
  | [], s => some s
  | _ :: _, [] => none
  | p :: ps, c :: cs => if c = p then startsWithSeq ps cs else none

/-- Maximal run of digit characters at the head of the string, and the
rest. -/
def digitSpan : List Char → List Char × List Char
  | [] => ([], [])
  | c :: cs =>
    if c.isDigit then
      let (ds, r) := digitSpan cs
      (c :: ds, r)
    else ([], c :: cs)

/-- Match the regex `Comments: \(\d+\)` at the head of the string;
returns the remainder after the match.  Backtracking on `\d+` followed
by the literal `)` succeeds exactly when the maximal digit run is
nonempty and followed by `)`. -/
def matchMarker (s : List Char) : Option (List Char) :=
  match startsWithSeq markerHead s with
  | none => none
  | some t =>
    match digitSpan t with
    | ([], _) => none
    | (_ :: _, ')' :: rest) => some rest
    | (_ :: _, _) => none

/-- Remainder of the input after the leftmost match of the section
marker, if the marker occurs (the text `re.split` puts after entry 0). -/
def findMarker : List Char → Option (List Char)
  | [] => none
  | c :: cs =>
    match matchMarker (c :: cs) with
    | some rem => some rem
    | none => findMarker cs

/-- Text before the next match of the section marker (so that the
region used is `re.split(pattern, input)[1]`, the segment between the
first and second marker occurrences). -/
def takeUntilMarker : List Char → List Char
  | [] => []
  | c :: cs =>
    match matchMarker (c :: cs) with
    | some _ => []
    | none => c :: takeUntilMarker cs

/-- The fixed distribution-notice line filtered out by `string_to_df`. -/
def noticeChars : List Char :=
  "Restricted Information - Not for Further Distribution".data

/-- The per-line filter of the list comprehension in `string_to_df`:
keep a candidate line unless it is empty or exactly the notice line. -/
def keepLine (l : List Char) : Bool :=
  !(l = ([] : List Char) || l = noticeChars)

/-- The per-line cleanup of the list comprehension in `string_to_df`:
`comment.split(". ", 1)[-1].strip()`. -/
def cleanLine (l : List Char) : List Char :=
  pyStrip (split1Last l)

/-- The cell replacement performed by `df.replace("nan", "No comment")`
(and by the helper `nan_to_nocomment`). -/
def nanReplace (l : List Char) : List Char :=
  if l = "nan".data then "No comment".data else l

/-- Failure raised by `string_to_df` when the marker is absent
(`ValueError("The Comments section was not found")`). -/
inductive ParseError where
  | formatError (msg : String)
deriving DecidableEq

deriving instance DecidableEq for Except

/-- Embedding of `docx_to_csv.string_to_df`: split the raw text on the
`Comments: \(\d+\)` marker, fail if it is absent, then clean the lines
of the first post-marker segment, normalize `"nan"` cells to
`"No comment"` and drop empty cells. -/
def string_to_df (input : List Char) : Except ParseError (List (List Char)) :=
  match findMarker input with
  | none => .error (.formatError "The Comments section was not found")
  | some rem =>
    let data_raw := pyStrip (takeUntilMarker rem)
    let comment_list_raw := splitOnChar '\n' data_raw
    let comment_list_pre := (comment_list_raw.filter keepLine).map cleanLine
    let replaced := comment_list_pre.map nanReplace
    .ok (replaced.filter (fun l => !(l = ([] : List Char))))

/-- The declarative form of "the raw text contains a section marker
matching `Comments: \(\d+\)`": some decomposition of the text exhibits
the literal head, a nonempty digit run and the closing parenthesis. -/
def containsMarker (s : List Char) : Prop :=
  ∃ pre ds post, s = pre ++ markerHead ++ ds ++ ')' :: post ∧
    ds ≠ [] ∧ ds.all Char.isDigit = true

/-- A cell of a pandas dataframe in this pipeline: either a comment
string or an integer topic label. -/
inductive Value where
  | str (s : List Char)
  | int (n : Int)
deriving DecidableEq

/-- A pandas dataframe: column labels plus rows of cells. -/
structure DataFrame where
  header : List String
  rows : List (List Value)
deriving DecidableEq

/-- Index of the first column with the given label (pandas label
lookup `df[name]`). -/
def colIdx : List String → String → Option Nat
  | [], _ => none
  | h :: t, c => if h = c then some 0 else (colIdx t c).map (· + 1)

/-- The `comment` cell of a row of `df` (the key used by
`drop_duplicates(subset=["comment"])` and by the merge). -/
def commentKey (df : DataFrame) (r : List Value) : Option Value :=
  (colIdx df.header "comment").bind r.get?

/-- Accumulator form of `drop_duplicates`: keep a row when its key has
not been seen yet (first occurrence wins). -/
def dedupSeen (key : List Value → Option Value) :
    List (List Value) → List (Option Value) → List (List Value)
  | [], _ => []
  | r :: rs, seen =>
    if key r ∈ seen then dedupSeen key rs seen
    else r :: dedupSeen key rs (key r :: seen)

/-- `df.drop_duplicates(subset=["comment"])` modelled by its key
function. -/
def dedupBy (key : List Value → Option Value) (rows : List (List Value)) :
    List (List Value) :=
  dedupSeen key rows []

/-- Length of `pd.merge(u1, u2, on="comment", how="inner")`: for each
left row, the number of right rows with an equal key. -/
def mergeCount (k1 k2 : List Value → Option Value)
    (rows1 rows2 : List (List Value)) : Nat :=
  (rows1.map (fun r1 => (rows2.filter (fun r2 => decide (k2 r2 = k1 r1))).length)).sum

/-- Embedding of `utils.count_duplicates` on the two tables the CSV
files hold (`pd.read_csv` itself is I/O and out of scope): `-1.0` when
either table lacks a `comment` column, otherwise the inner-merge count
of the deduplicated tables over the smaller deduplicated size, as a
percentage, with `0.0` guarding the division by zero. -/
def count_duplicates (df1 df2 : DataFrame) : ℚ :=
  if !(df1.header.contains "comment") || !(df2.header.contains "comment") then -1
  else
    let u1 := dedupBy (commentKey df1) df1.rows
    let u2 := dedupBy (commentKey df2) df2.rows
    let duplicates := mergeCount (commentKey df1) (commentKey df2) u1 u2
    let smaller_len := min u1.length u2.length
    if smaller_len = 0 then 0
    else (duplicates : ℚ) / (smaller_len : ℚ) * 100

/-- Embedding of `utils.split_sentences_helper`: `re.split(r"\.", para)`. -/
def split_sentences_helper (para : List Char) : List (List Char) :=
  splitOnChar '.' para

/-- Embedding of `utils.break_into_sentences` on the comment column the
CSV file holds.  The code explodes the per-comment fragment lists, drops
rows whose cell is exactly `" "` (the `new_df[new_df != " "].dropna()`
mask; the preceding `dropna` only concerns missing cells, which string
inputs never produce), and strips the survivors last. -/
def break_into_sentences (comments : List (List Char)) : List (List Char) :=
  let exploded := (comments.map split_sentences_helper).flatten
  let filtered := exploded.filter (fun l => !(l = [' ']))
  filtered.map pyStrip

/-- The row mask of `df["topics"].isin(selected_topics)` read at column
index `i`: the cell is an integer belonging to the selected list. -/
def rowTopicSel (selected : List Int) (i : Nat) (r : List Value) : Bool :=
  match r.get? i with
  | some v => decide (v ∈ selected.map Value.int)
  | none => false

/-- Embedding of `utils.topic_aggregation` on the in-memory table (the
final `to_csv` is I/O and out of scope): keep the rows whose `topics`
cell is in the selected list and drop the `topics` column; `none`
models the `KeyError` pandas raises when the label is absent. -/
def topic_aggregation (selected : List Int) (df : DataFrame) : Option DataFrame :=
  match colIdx df.header "topics" with
  | none => none
  | some i =>
    some ⟨df.header.eraseIdx i,
      (df.rows.filter (rowTopicSel selected i)).map (fun r => r.eraseIdx i)⟩

/-- Name-based cell lookup in a header/row pair. -/
def lookupCell (header : List String) (row : List Value) (c : String) :
    Option Value :=
  (colIdx header c).bind row.get?

/-- The session phases of the spec state machine. -/
inductive SessionPhase where
  | Idle
  | Training
  | Ready
  | Failed
deriving DecidableEq

/-- The `model_status_var` string each phase corresponds to in
`app.App` (`_init_vars`, `_run_model`, `_start_model_training`). -/
def statusOf : SessionPhase → String
  | .Idle => "Model not started"
  | .Training => "Model is training..."
  | .Ready => "Model training done."
  | .Failed => "Model training failed."

/-- Embedding of `App._update_button_states`: the state the detailed-
info, hierarchy and barchart buttons are set to for a given status
string. -/
def update_button_states (model_status : String) : String :=
  if model_status = "Model training done." then "normal" else "disabled"

/-- The session data `App._csv_subset` touches: the phase (via the
status string) and the topic-labeled table `self.df`, which is absent
until a training run has succeeded. -/
structure Session where
  phase : SessionPhase
  df : Option DataFrame
deriving DecidableEq

/-- Python exceptions `App._csv_subset` can raise. -/
inductive PyExc where
  | attributeError
  | keyError
deriving DecidableEq

/-- Embedding of `App._csv_subset` (with the selected topics already
parsed): reading `self.df` before any successful training raises
`AttributeError`; otherwise the result is that of `topic_aggregation`,
whose missing-column failure is pandas' `KeyError`.  Note the function
never consults the session phase. -/
def csv_subset (s : Session) (selected : List Int) : Except PyExc DataFrame :=
  match s.df with
  | none => .error .attributeError
  | some df =>
    match topic_aggregation selected df with
    | none => .error .keyError
    | some out => .ok out

/-- The events of `app.App` that change `model_status_var`, the three
view buttons or `self.df`: clicking "Train model" (`_run_model`), and
the success/failure completions of `_start_model_training`. -/
inductive UIEvent where
  | runModel
  | trainingDone (df : DataFrame)
  | trainingFailed
deriving DecidableEq

/-- The pieces of `App` state the view operations depend on: the status
string, the common state of the detailed-info/hierarchy/barchart
buttons, and the held topic-labeled table. -/
structure UIState where
  model_status : String
  view_buttons : String
  df : Option DataFrame
deriving DecidableEq

/-- Initial state: `_init_vars` sets the status to
`"Model not started"` and `_create_widgets` calls
`_update_button_states` once on it; `self.df` does not exist yet. -/
def uiInit : UIState :=
  ⟨"Model not started", update_button_states "Model not started", none⟩

/-- One event of `App`: `_run_model` sets the status to
`"Model is training..."` *without* calling `_update_button_states`, so
the buttons keep their previous state; `_update_model_status` (run at
the end of `_start_model_training` on success or failure) sets the
status and refreshes the buttons, and a successful run also stores the
labeled table in `self.df` (a failed one leaves it as it was). -/
def uiStep (s : UIState) : UIEvent → UIState
  | .runModel => ⟨"Model is training...", s.view_buttons, s.df⟩
  | .trainingDone df =>
    ⟨"Model training done.", update_button_states "Model training done.",
      some df⟩
  | .trainingFailed =>
    ⟨"Model training failed.", update_button_states "Model training failed.",
      s.df⟩

/-- The `App` state after a sequence of events from start-up. -/
def uiRun (events : List UIEvent) : UIState :=
  events.foldl uiStep uiInit

/-- Key-level image of `dedupSeen`: deduplicate a list of `comment`
keys against an accumulator of already-seen keys. -/
def dedupKeysSeen : List (Option Value) → List (Option Value) → List (Option Value)
  | [], _ => []
  | x :: xs, seen =>
    if x ∈ seen then dedupKeysSeen xs seen
    else x :: dedupKeysSeen xs (x :: seen)

/-- Key-level image of `mergeCount`: for each left key, the number of
equal right keys, summed. -/
def keyMerge (ks1 ks2 : List (Option Value)) : Nat :=
  (ks1.map (fun x => (ks2.filter (fun y => decide (y = x))).length)).sum

/-- The arithmetic of `count_duplicates` expressed on the two `comment`
key sequences alone. -/
def keyPercent (ks1 ks2 : List (Option Value)) : ℚ :=
  if min (dedupKeysSeen ks1 []).length (dedupKeysSeen ks2 []).length = 0 then 0
  else (keyMerge (dedupKeysSeen ks1 []) (dedupKeysSeen ks2 []) : ℚ) /
    ((min (dedupKeysSeen ks1 []).length (dedupKeysSeen ks2 []).length : Nat) : ℚ) * 100

/-- The raw text of the spec's extraction scenario. -/
def c1Input : List Char :=
  "Comments: (2)\n1. Great place to work.\n2. nan\nRestricted Information - Not for Further Distribution\n".data

/-- The text after the marker in the extraction scenario. -/
def c1Rem : List Char :=
  "\n1. Great place to work.\n2. nan\nRestricted Information - Not for Further Distribution\n".data

/-- A raw text whose single comment line strips to the distribution
notice: the numbering prefix defeats the verbatim-equality filter. -/
def c4Input : List Char :=
  "Comments: (1)\n1. Restricted Information - Not for Further Distribution\n".data

end WorkCulture
namespace WorkCulture

/-! ### Soundness of the marker scanner -/

theorem startsWithSeq_sound : ∀ (p s t : List Char),
    startsWithSeq p s = some t → s = p ++ t := by
  intro p
  induction p with
  | nil =>
    intro s t h
    simp [startsWithSeq] at h
    simp [h]
  | cons c cs ih =>
    intro s t h
    cases s with
    | nil => simp [startsWithSeq] at h
    | cons a as =>
      simp only [startsWithSeq] at h
      by_cases hac : a = c
      · subst hac
        simp at h
        simpa using ih as t h
      · simp [hac] at h

theorem digitSpan_sound : ∀ (s ds r : List Char),
    digitSpan s = (ds, r) → s = ds ++ r ∧ ds.all Char.isDigit = true := by
  intro s
  induction s with
  | nil =>
    intro ds r h
    simp [digitSpan] at h
    simp [h.1, h.2]
  | cons c cs ih =>
    intro ds r h
    simp only [digitSpan] at h
    by_cases hd : c.isDigit
    · simp only [hd, if_true] at h
      obtain ⟨h1, h2⟩ := ih (digitSpan cs).1 (digitSpan cs).2 rfl
      obtain ⟨hds, hr⟩ := Prod.mk.injEq .. ▸ h
      constructor
      · rw [← hds, ← hr]
        simpa using h1
      · rw [← hds]
        simpa [hd] using h2
    · simp [hd] at h
      obtain ⟨hds, hr⟩ := h
      subst hds
      simp [← hr]

theorem matchMarker_sound : ∀ (s rem : List Char), matchMarker s = some rem →
    ∃ ds, s = markerHead ++ ds ++ ')' :: rem ∧ ds ≠ [] ∧ ds.all Char.isDigit = true := by
  intro s rem h
  unfold matchMarker at h
  split at h
  · exact absurd h (by simp)
  · rename_i t hs
    have hst := startsWithSeq_sound markerHead s t hs
    split at h
    · exact absurd h (by simp)
    · rename_i d ds' rest hd
      obtain ⟨hsplit, hdig⟩ := digitSpan_sound t (d :: ds') (')' :: rest) hd
      simp only [Option.some.injEq] at h
      refine ⟨d :: ds', ?_, by simp, hdig⟩
      rw [hst, hsplit, ← h]
      simp
    · exact absurd h (by simp)

theorem findMarker_sound : ∀ (s rem : List Char),
    findMarker s = some rem → containsMarker s := by
  intro s
  induction s with
  | nil => intro rem h; simp [findMarker] at h
  | cons c cs ih =>
    intro rem h
    unfold findMarker at h
    cases hm : matchMarker (c :: cs) with
    | some r =>
      rw [hm] at h
      obtain ⟨ds, hsplit, hne, hdig⟩ := matchMarker_sound (c :: cs) r hm
      exact ⟨[], ds, r, by simpa using hsplit, hne, hdig⟩
    | none =>
      rw [hm] at h
      obtain ⟨pre, ds, post, hsplit, hne, hdig⟩ := ih rem h
      exact ⟨c :: pre, ds, post, by simp [hsplit], hne, hdig⟩

/-! ### The extraction pipeline -/

theorem string_to_df_some (input rem : List Char)
    (h : findMarker input = some rem) :
    string_to_df input = .ok (((((splitOnChar '\n'
      (pyStrip (takeUntilMarker rem))).filter keepLine).map cleanLine).map
        nanReplace).filter (fun l => !(l = ([] : List Char)))) := by
  unfold string_to_df
  rw [h]

theorem keepLine_of_cleanLine_nan (l : List Char)
    (h : cleanLine l = "nan".data) : keepLine l = true := by
  have hne : l ≠ [] := by
    intro he
    rw [he] at h
    exact absurd h (by decide)
  have hnn : l ≠ noticeChars := by
    intro he
    rw [he] at h
    exact absurd h (by decide)
  simp [keepLine, hne, hnn]

/-- C8: for every raw input text that does not contain a section marker
matching `Comments: (` followed by one or more digits and `)`,
`CommentParser.parse` (`string_to_df`) fails with the format error and
produces no comment table. -/
theorem missing_marker_fails (input : List Char)
    (h : ¬ containsMarker input) :
    string_to_df input =
      .error (.formatError "The Comments section was not found") := by
  cases hf : findMarker input with
  | none => unfold string_to_df; rw [hf]
  | some rem => exact absurd (findMarker_sound input rem hf) h

/-- Witness for C8 at the concrete input `"oops"` (too short to contain
the marker). -/
theorem missing_marker_fails_witness :
    ¬ containsMarker "oops".data ∧
      string_to_df "oops".data =
        .error (.formatError "The Comments section was not found") := by
  have h : ¬ containsMarker "oops".data := by
    rintro ⟨pre, ds, post, heq, hne, -⟩
    have hlen := congrArg List.length heq
    have hds : 0 < ds.length := List.length_pos.mpr hne
    simp [markerHead, List.length_append] at hlen
    omega
  exact ⟨h, missing_marker_fails "oops".data h⟩

/-- C1: the spec's extraction scenario produces exactly
`["Great place to work.", "No comment"]`, and in general every
candidate line that equals `"nan"` after numbering-prefix stripping
contributes the record `"No comment"` to the parsed table. -/
theorem nan_line_yields_no_comment :
    (string_to_df c1Input =
      .ok ["Great place to work.".data, "No comment".data]) ∧
    ∀ (input rem l : List Char) (out : List (List Char)),
      findMarker input = some rem →
      string_to_df input = .ok out →
      l ∈ splitOnChar '\n' (pyStrip (takeUntilMarker rem)) →
      cleanLine l = "nan".data →
      "No comment".data ∈ out := by
  constructor
  · decide
  · intro input rem l out hf hok hl hclean
    rw [string_to_df_some input rem hf] at hok
    obtain rfl : _ = out := Except.ok.inj hok
    apply List.mem_filter.mpr
    refine ⟨?_, by decide⟩
    have h1 : l ∈ (splitOnChar '\n' (pyStrip (takeUntilMarker rem))).filter keepLine :=
      List.mem_filter.mpr ⟨hl, keepLine_of_cleanLine_nan l hclean⟩
    have h2 := List.mem_map_of_mem cleanLine h1
    have h3 := List.mem_map_of_mem nanReplace h2
    rw [hclean] at h3
    simpa [nanReplace] using h3

/-- Witness for C1's general clause at the scenario input and the
candidate line `"2. nan"`. -/
theorem nan_line_yields_no_comment_witness :
    cleanLine "2. nan".data = "nan".data ∧
      "No comment".data ∈
        ["Great place to work.".data, "No comment".data] :=
  ⟨by decide,
    nan_line_yields_no_comment.2 c1Input c1Rem "2. nan".data
      ["Great place to work.".data, "No comment".data]
      (by decide) (by decide) (by decide) (by decide)⟩

/-- Counterexample to C4: the input whose only comment line is
`"1. Restricted Information - Not for Further Distribution"` contains
the marker, yet parsing it yields a record equal to the distribution
notice — numbering-prefix stripping turns the line into the notice
after the verbatim-equality filter has already passed it. -/
theorem notice_record_counterexample :
    string_to_df c4Input = .ok [noticeChars] := by
  decide

/-- C4 as amended: a record equal to the notice can only arise from a
candidate line that *cleans* to the notice; whenever no candidate line
of the data region does, no record of the parsed table equals the
notice.  (Lines verbatim equal to the notice are always discarded, but
lines that become the notice after prefix stripping are not.) -/
theorem notice_filter_amended (input rem : List Char)
    (out : List (List Char))
    (hf : findMarker input = some rem)
    (hlines : ∀ l ∈ splitOnChar '\n' (pyStrip (takeUntilMarker rem)),
      keepLine l = true → cleanLine l ≠ noticeChars)
    (hok : string_to_df input = .ok out) :
    noticeChars ∉ out := by
  rw [string_to_df_some input rem hf] at hok
  obtain rfl : _ = out := Except.ok.inj hok
  intro hmem
  obtain ⟨x, hx, hrep⟩ := List.mem_map.mp (List.mem_filter.mp hmem).1
  have hxn : x = noticeChars := by
    by_cases hxe : x = "nan".data
    · rw [hxe] at hrep
      exact absurd hrep (by decide)
    · simpa [nanReplace, hxe] using hrep
  obtain ⟨l, hl, hcl⟩ := List.mem_map.mp hx
  obtain ⟨hlm, hlk⟩ := List.mem_filter.mp hl
  exact hlines l hlm hlk (hcl.trans hxn)

/-- Witness for the amended C4 at the spec's extraction scenario. -/
theorem notice_filter_amended_witness :
    (∀ l ∈ splitOnChar '\n' (pyStrip (takeUntilMarker c1Rem)),
      keepLine l = true → cleanLine l ≠ noticeChars) ∧
      noticeChars ∉ ["Great place to work.".data, "No comment".data] :=
  ⟨by decide,
    notice_filter_amended c1Input c1Rem
      ["Great place to work.".data, "No comment".data]
      (by decide) (by decide) (by decide)⟩

/-! ### Sentence splitting -/

/-- Counterexample to C3: the comment `"a..b"` has an empty fragment
between the two periods; the cell filter only removes cells equal to a
single space and the final strip happens after it, so the empty
fragment survives as an empty-string record. -/
theorem sentence_split_empty_record :
    ([] : List Char) ∈ break_into_sentences ["a..b".data] := by
  decide

/-- C3 as amended: every record of the split is the whitespace-trim of
a period-split fragment of some input comment that is not exactly one
space character.  Records whose trimmed value is empty are *not*
dropped (see the counterexample), so empty records can occur. -/
theorem sentence_split_amended (comments : List (List Char))
    (r : List Char) (hr : r ∈ break_into_sentences comments) :
    ∃ c ∈ comments, ∃ f ∈ split_sentences_helper c,
      f ≠ [' '] ∧ r = pyStrip f := by
  unfold break_into_sentences at hr
  obtain ⟨f, hf, hfr⟩ := List.mem_map.mp hr
  obtain ⟨hfl, hfs⟩ := List.mem_filter.mp hf
  obtain ⟨lst, hlst, hflst⟩ := List.mem_flatten.mp hfl
  obtain ⟨c, hc, hcl⟩ := List.mem_map.mp hlst
  refine ⟨c, hc, f, ?_, ?_, hfr.symm⟩
  · rw [hcl]; exact hflst
  · simpa using hfs

/-- Witness for the amended C3: the record `"a"` of splitting
`["a. b"]` comes from the fragment `"a"`. -/
theorem sentence_split_amended_witness :
    ("a".data ∈ break_into_sentences ["a. b".data]) ∧
      ∃ c ∈ ["a. b".data], ∃ f ∈ split_sentences_helper c,
        f ≠ [' '] ∧ "a".data = pyStrip f :=
  ⟨by decide, sentence_split_amended ["a. b".data] "a".data (by decide)⟩

/-! ### The duplicate comparator at the level of comment keys -/

theorem sum_map_zero {α : Type} : ∀ (l : List α),
    (l.map (fun _ => (0 : Nat))).sum = 0 := by
  intro l
  induction l with
  | nil => rfl
  | cons a t ih => simp [ih]

theorem sum_map_one {α : Type} : ∀ (l : List α),
    (l.map (fun _ => (1 : Nat))).sum = l.length := by
  intro l
  induction l with
  | nil => rfl
  | cons a t ih => simp [ih, Nat.add_comm]

theorem sum_map_add {α : Type} (f g : α → Nat) : ∀ (l : List α),
    (l.map (fun a => f a + g a)).sum = (l.map f).sum + (l.map g).sum := by
  intro l
  induction l with
  | nil => rfl
  | cons a t ih =>
    simp only [List.map_cons, List.sum_cons, ih]
    omega

theorem filter_eq_of_not_mem {α : Type} [DecidableEq α] (a : α) :
    ∀ (l : List α), a ∉ l → l.filter (fun y => decide (y = a)) = [] := by
  intro l
  induction l with
  | nil => intro _; rfl
  | cons b t ih =>
    intro h
    have hb : b ≠ a := fun e => h (e ▸ List.mem_cons_self b t)
    have ht : a ∉ t := fun e => h (List.mem_cons_of_mem b e)
    simp [List.filter_cons, hb, ih ht]

theorem length_filter_self_of_nodup {α : Type} [DecidableEq α] :
    ∀ (l : List α), l.Nodup → ∀ x ∈ l,
      (l.filter (fun y => decide (y = x))).length = 1 := by
  intro l
  induction l with
  | nil => intro _ x hx; exact absurd hx (by simp)
  | cons a t ih =>
    intro hnd x hx
    obtain ⟨hna, hndt⟩ := List.nodup_cons.mp hnd
    rcases List.mem_cons.mp hx with hxa | hxt
    · subst hxa
      simp [List.filter_cons, filter_eq_of_not_mem x t hna]
    · have hax : a ≠ x := fun e => hna (e ▸ hxt)
      simp [List.filter_cons, hax, ih hndt x hxt]

theorem length_filter_eq_sum {α : Type} [DecidableEq α] (x : α) :
    ∀ (l : List α), (l.filter (fun y => decide (y = x))).length =
      (l.map (fun y => if y = x then 1 else 0)).sum := by
  intro l
  induction l with
  | nil => rfl
  | cons b t ih =>
    by_cases h : b = x
    · simp [List.filter_cons, h, ih, Nat.add_comm]
    · simp [List.filter_cons, h, ih]

theorem sum_sum_comm {α β : Type} (f : α → β → Nat) : ∀ (l1 : List α) (l2 : List β),
    (l1.map (fun x => (l2.map (f x)).sum)).sum =
      (l2.map (fun y => (l1.map (fun x => f x y)).sum)).sum := by
  intro l1
  induction l1 with
  | nil =>
    intro l2
    simp only [List.map_nil, List.sum_nil]
    exact (sum_map_zero l2).symm
  | cons x xs ih =>
    intro l2
    simp only [List.map_cons, List.sum_cons]
    rw [ih l2, ← sum_map_add (fun y => f x y)
      (fun y => (xs.map (fun x' => f x' y)).sum) l2]

theorem sum_count_comm {α : Type} [DecidableEq α] : ∀ (l1 l2 : List α),
    (l1.map (fun x => (l2.filter (fun y => decide (y = x))).length)).sum =
      (l2.map (fun y => (l1.filter (fun x => decide (x = y))).length)).sum := by
  intro l1 l2
  have h1 : (l1.map (fun x => (l2.filter (fun y => decide (y = x))).length)).sum =
      (l1.map (fun x => (l2.map (fun y => if y = x then 1 else 0)).sum)).sum := by
    congr 1
    apply List.map_congr_left
    intro x _
    exact length_filter_eq_sum x l2
  have h2 : (l2.map (fun y => (l1.filter (fun x => decide (x = y))).length)).sum =
      (l2.map (fun y => (l1.map (fun x => if y = x then 1 else 0)).sum)).sum := by
    congr 1
    apply List.map_congr_left
    intro y _
    refine (length_filter_eq_sum y l1).trans ?_
    congr 1
    apply List.map_congr_left
    intro x _
    exact if_congr eq_comm rfl rfl
  rw [h1, h2]
  exact sum_sum_comm (fun x y => if y = x then 1 else 0) l1 l2

theorem map_dedupSeen (k : List Value → Option Value) :
    ∀ (rows : List (List Value)) (seen : List (Option Value)),
      (dedupSeen k rows seen).map k = dedupKeysSeen (rows.map k) seen := by
  intro rows
  induction rows with
  | nil => intro seen; rfl
  | cons r rs ih =>
    intro seen
    by_cases h : k r ∈ seen
    · simp [dedupSeen, dedupKeysSeen, h, ih]
    · simp [dedupSeen, dedupKeysSeen, h, ih]

theorem length_dedupSeen (k : List Value → Option Value)
    (rows : List (List Value)) (seen : List (Option Value)) :
    (dedupSeen k rows seen).length = (dedupKeysSeen (rows.map k) seen).length := by
  rw [← map_dedupSeen k rows seen, List.length_map]

theorem filter_key_length (k : List Value → Option Value)
    (b : List (List Value)) (x : Option Value) :
    ((b.map k).filter (fun y => decide (y = x))).length =
      (b.filter (fun r => decide (k r = x))).length := by
  rw [← List.countP_eq_length_filter, ← List.countP_eq_length_filter,
    List.countP_map]
  rfl

theorem mergeCount_eq_keyMerge (k1 k2 : List Value → Option Value)
    (a b : List (List Value)) :
    mergeCount k1 k2 a b = keyMerge (a.map k1) (b.map k2) := by
  unfold mergeCount keyMerge
  rw [List.map_map]
  congr 1
  apply List.map_congr_left
  intro r1 _
  exact (filter_key_length k2 b (k1 r1)).symm

theorem keyMerge_comm (u v : List (Option Value)) :
    keyMerge u v = keyMerge v u := by
  unfold keyMerge
  exact sum_count_comm u v

theorem dedupKeysSeen_nodup : ∀ (ks seen : List (Option Value)),
    (dedupKeysSeen ks seen).Nodup ∧
      ∀ x ∈ dedupKeysSeen ks seen, x ∉ seen := by
  intro ks
  induction ks with
  | nil => intro seen; exact ⟨List.nodup_nil, by simp [dedupKeysSeen]⟩
  | cons x xs ih =>
    intro seen
    by_cases h : x ∈ seen
    · rw [dedupKeysSeen, if_pos h]
      exact ih seen
    · rw [dedupKeysSeen, if_neg h]
      obtain ⟨hnd, hout⟩ := ih (x :: seen)
      refine ⟨List.nodup_cons.mpr ⟨?_, hnd⟩, ?_⟩
      · intro hx
        exact hout x hx (List.mem_cons_self x seen)
      · intro y hy
        rcases List.mem_cons.mp hy with rfl | hyt
        · exact h
        · intro hys
          exact hout y hyt (List.mem_cons_of_mem x hys)

theorem keyMerge_self (u : List (Option Value)) (h : u.Nodup) :
    keyMerge u u = u.length := by
  unfold keyMerge
  have hone : u.map (fun x => (u.filter (fun y => decide (y = x))).length) =
      u.map (fun _ => 1) := by
    apply List.map_congr_left
    intro x hx
    exact length_filter_self_of_nodup u h x hx
  rw [hone, sum_map_one]

theorem count_duplicates_keys (df1 df2 : DataFrame)
    (h1 : df1.header.contains "comment" = true)
    (h2 : df2.header.contains "comment" = true) :
    count_duplicates df1 df2 =
      keyPercent (df1.rows.map (commentKey df1)) (df2.rows.map (commentKey df2)) := by
  unfold count_duplicates keyPercent
  rw [h1, h2]
  simp only [Bool.not_true, Bool.or_self, Bool.false_eq_true, if_false]
  unfold dedupBy
  rw [mergeCount_eq_keyMerge, map_dedupSeen, map_dedupSeen,
    length_dedupSeen, length_dedupSeen]

theorem keyPercent_self (ks : List (Option Value)) :
    (ks ≠ [] → keyPercent ks ks = 100) ∧ (ks = [] → keyPercent ks ks = 0) := by
  unfold keyPercent
  rw [min_self, keyMerge_self (dedupKeysSeen ks []) (dedupKeysSeen_nodup ks []).1]
  constructor
  · intro hne
    cases ks with
    | nil => exact absurd rfl hne
    | cons x t =>
      have hu : dedupKeysSeen (x :: t) [] = x :: dedupKeysSeen t [x] := by
        rw [dedupKeysSeen, if_neg (by simp)]
      rw [hu, if_neg (by simp)]
      have hlen : (((x :: dedupKeysSeen t [x]).length : Nat) : ℚ) ≠ 0 :=
        Nat.cast_ne_zero.mpr (by simp)
      rw [div_self hlen, one_mul]
  · intro he
    subst he
    simp [dedupKeysSeen]

/-- Helper shared by C6's counterexample and amended statement: the
comparator is symmetric, because both the inner-merge count and the
minimum of the deduplicated sizes are. -/
theorem count_duplicates_comm (A B : DataFrame) :
    count_duplicates A B = count_duplicates B A := by
  by_cases h1 : A.header.contains "comment" = true
  · by_cases h2 : B.header.contains "comment" = true
    · rw [count_duplicates_keys A B h1 h2, count_duplicates_keys B A h2 h1]
      unfold keyPercent
      rw [keyMerge_comm, min_comm]
    · have h2f : B.header.contains "comment" = false :=
        Bool.eq_false_iff.mpr h2
      simp only [count_duplicates]
      rw [h2f]
      simp only [Bool.not_false, Bool.true_or, Bool.or_true, if_true]
  · have h1f : A.header.contains "comment" = false :=
      Bool.eq_false_iff.mpr h1
    simp only [count_duplicates]
    rw [h1f]
    simp only [Bool.not_false, Bool.true_or, Bool.or_true, if_true]

/-- C5: comparing a table (with a `comment` column) against itself
yields `100.0` when it has at least one row (so the deduplicated table
is nonempty) and `0.0` when it is empty. -/
theorem self_compare_percent (A : DataFrame)
    (h : A.header.contains "comment" = true) :
    (A.rows ≠ [] → count_duplicates A A = 100) ∧
      (A.rows = [] → count_duplicates A A = 0) := by
  rw [count_duplicates_keys A A h h]
  constructor
  · intro hne
    apply (keyPercent_self (A.rows.map (commentKey A))).1
    cases hr : A.rows with
    | nil => exact absurd hr hne
    | cons r rs => simp [hr]
  · intro he
    apply (keyPercent_self (A.rows.map (commentKey A))).2
    rw [he]
    rfl

/-- Witness for C5 at a one-row table and at an empty table. -/
theorem self_compare_percent_witness :
    ((DataFrame.mk ["comment"] [[Value.str "a".data]]).rows ≠ [] ∧
      (DataFrame.mk ["comment"] [[Value.str "a".data]]).header.contains
        "comment" = true) ∧
    count_duplicates ⟨["comment"], [[Value.str "a".data]]⟩
        ⟨["comment"], [[Value.str "a".data]]⟩ = 100 ∧
    count_duplicates ⟨["comment"], ([] : List (List Value))⟩
        ⟨["comment"], ([] : List (List Value))⟩ = 0 :=
  ⟨⟨by decide, by decide⟩,
    (self_compare_percent ⟨["comment"], [[Value.str "a".data]]⟩ (by decide)).1
      (by decide),
    (self_compare_percent ⟨["comment"], ([] : List (List Value))⟩ (by decide)).2
      rfl⟩

/-- Counterexample to C6: the claim asserts the existence of a pair of
comment tables on which the comparator is order-sensitive, but the
comparator is symmetric — the overlap count and the minimum of the two
deduplicated sizes do not depend on the argument order — so no such
pair exists. -/
theorem compare_not_asymmetric :
    ¬ ∃ A B : DataFrame,
      (A.header.contains "comment" = true ∧
        B.header.contains "comment" = true) ∧
        count_duplicates A B ≠ count_duplicates B A :=
  fun ⟨A, B, _, h⟩ => h (count_duplicates_comm A B)

/-- C6 as amended: `DuplicateComparator.compare` is symmetric —
`compare(A, B) = compare(B, A)` for all tables. -/
theorem compare_symmetric (A B : DataFrame) :
    count_duplicates A B = count_duplicates B A :=
  count_duplicates_comm A B

/-- C7: when either table lacks a `comment` column the comparator
returns the sentinel `-1.0` (it does not raise), and when both have the
column but the smaller deduplicated table is empty it returns `0.0`
instead of faulting on the division. -/
theorem compare_error_handling (df1 df2 : DataFrame) :
    ((df1.header.contains "comment" = false ∨
        df2.header.contains "comment" = false) →
      count_duplicates df1 df2 = -1) ∧
    (df1.header.contains "comment" = true →
      df2.header.contains "comment" = true →
      min (dedupBy (commentKey df1) df1.rows).length
          (dedupBy (commentKey df2) df2.rows).length = 0 →
      count_duplicates df1 df2 = 0) := by
  constructor
  · intro h
    simp only [count_duplicates]
    rcases h with h | h <;> rw [h] <;>
      simp only [Bool.not_false, Bool.true_or, Bool.or_true, if_true]
  · intro h1 h2 hmin
    simp only [count_duplicates]
    rw [h1, h2]
    simp only [Bool.not_true, Bool.or_self, Bool.false_eq_true, if_false]
    rw [if_pos hmin]

/-- Witness for C7: a table without a `comment` column signals `-1`,
and an empty table against a nonempty one yields `0`. -/
theorem compare_error_handling_witness :
    count_duplicates ⟨["x"], ([] : List (List Value))⟩ ⟨["comment"], []⟩ = -1 ∧
    count_duplicates ⟨["comment"], ([] : List (List Value))⟩
        ⟨["comment"], [[Value.str "a".data]]⟩ = 0 :=
  ⟨(compare_error_handling ⟨["x"], []⟩ ⟨["comment"], []⟩).1
      (Or.inl (by decide)),
    (compare_error_handling ⟨["comment"], []⟩
        ⟨["comment"], [[Value.str "a".data]]⟩).2 (by decide) (by decide)
      (by decide)⟩

/-- C10: the comparator's result depends only on the sequences of
`comment` cells of its two inputs; tables whose other columns differ
arbitrarily compare identically. -/
theorem compare_depends_only_on_comments (A A' B B' : DataFrame)
    (hA : A.header.contains "comment" = true)
    (hA' : A'.header.contains "comment" = true)
    (hB : B.header.contains "comment" = true)
    (hB' : B'.header.contains "comment" = true)
    (hAk : A.rows.map (commentKey A) = A'.rows.map (commentKey A'))
    (hBk : B.rows.map (commentKey B) = B'.rows.map (commentKey B')) :
    count_duplicates A B = count_duplicates A' B' := by
  rw [count_duplicates_keys A B hA hB, count_duplicates_keys A' B' hA' hB',
    hAk, hBk]

/-- Witness for C10: the same comment sequence packaged with entirely
different extra columns and column orders compares equal. -/
theorem compare_depends_only_on_comments_witness :
    ((DataFrame.mk ["comment", "x"]
        [[Value.str "a".data, Value.str "p".data]]).rows.map
        (commentKey ⟨["comment", "x"],
          [[Value.str "a".data, Value.str "p".data]]⟩) =
      (DataFrame.mk ["y", "comment"]
        [[Value.int 3, Value.str "a".data]]).rows.map
        (commentKey ⟨["y", "comment"],
          [[Value.int 3, Value.str "a".data]]⟩)) ∧
    count_duplicates
        ⟨["comment", "x"], [[Value.str "a".data, Value.str "p".data]]⟩
        ⟨["comment"], [[Value.str "b".data]]⟩ =
      count_duplicates
        ⟨["y", "comment"], [[Value.int 3, Value.str "a".data]]⟩
        ⟨["comment", "z"], [[Value.str "b".data, Value.int 7]]⟩ :=
  ⟨by decide,
    compare_depends_only_on_comments
      ⟨["comment", "x"], [[Value.str "a".data, Value.str "p".data]]⟩
      ⟨["y", "comment"], [[Value.int 3, Value.str "a".data]]⟩
      ⟨["comment"], [[Value.str "b".data]]⟩
      ⟨["comment", "z"], [[Value.str "b".data, Value.int 7]]⟩
      (by decide) (by decide) (by decide) (by decide) (by decide)
      (by decide)⟩

/-! ### Topic-subset export -/

theorem colIdx_get : ∀ (l : List String) (c : String) (j : Nat),
    colIdx l c = some j → l.get? j = some c := by
  intro l
  induction l with
  | nil => intro c j h; exact absurd h (by simp [colIdx])
  | cons h t ih =>
    intro c j hc
    by_cases he : h = c
    · subst he
      rw [colIdx, if_pos rfl] at hc
      obtain rfl : 0 = j := Option.some.inj hc
      rfl
    · rw [colIdx, if_neg he] at hc
      obtain ⟨j', hj', rfl⟩ := Option.map_eq_some'.mp hc
      exact ih c j' hj'

theorem colIdx_eq_none : ∀ (l : List String) (c : String),
    c ∉ l → colIdx l c = none := by
  intro l
  induction l with
  | nil => intro c _; rfl
  | cons h t ih =>
    intro c hc
    have hhc : h ≠ c := fun e => hc (e ▸ List.mem_cons_self h t)
    rw [colIdx, if_neg hhc, ih c (fun e => hc (List.mem_cons_of_mem h e))]
    rfl

theorem mem_of_mem_erase {α : Type} : ∀ (l : List α) (i : Nat) (a : α),
    a ∈ l.eraseIdx i → a ∈ l := by
  intro l
  induction l with
  | nil => intro i a h; exact absurd h (by simp [List.eraseIdx])
  | cons x t ih =>
    intro i a h
    cases i with
    | zero => exact List.mem_cons_of_mem x h
    | succ i' =>
      rcases List.mem_cons.mp h with rfl | ht
      · exact List.mem_cons_self a t
      · exact List.mem_cons_of_mem x (ih i' a ht)

theorem colIdx_erase_lt : ∀ (l : List String) (c : String) (i j : Nat),
    colIdx l c = some j → j < i → colIdx (l.eraseIdx i) c = some j := by
  intro l
  induction l with
  | nil => intro c i j h _; exact absurd h (by simp [colIdx])
  | cons h t ih =>
    intro c i j hc hj
    cases i with
    | zero => exact absurd hj (by omega)
    | succ i' =>
      by_cases he : h = c
      · subst he
        rw [colIdx, if_pos rfl] at hc
        obtain rfl : 0 = j := Option.some.inj hc
        rw [List.eraseIdx, colIdx, if_pos rfl]
      · rw [colIdx, if_neg he] at hc
        obtain ⟨j', hj', rfl⟩ := Option.map_eq_some'.mp hc
        rw [List.eraseIdx, colIdx, if_neg he,
          ih c i' j' hj' (by omega)]
        rfl

theorem colIdx_erase_gt : ∀ (l : List String) (c : String) (i j : Nat),
    colIdx l c = some j → i < j → colIdx (l.eraseIdx i) c = some (j - 1) := by
  intro l
  induction l with
  | nil => intro c i j h _; exact absurd h (by simp [colIdx])
  | cons h t ih =>
    intro c i j hc hj
    by_cases he : h = c
    · subst he
      rw [colIdx, if_pos rfl] at hc
      obtain rfl : 0 = j := Option.some.inj hc
      exact absurd hj (by omega)
    · rw [colIdx, if_neg he] at hc
      obtain ⟨j', hj', rfl⟩ := Option.map_eq_some'.mp hc
      cases i with
      | zero =>
        rw [List.eraseIdx]
        simpa using hj'
      | succ i' =>
        rw [List.eraseIdx, colIdx, if_neg he,
          ih c i' j' hj' (by omega)]
        simp only [Option.map_some']
        congr 1
        omega

theorem get?_eraseIdx_lt {α : Type} : ∀ (l : List α) (i j : Nat), j < i →
    (l.eraseIdx i).get? j = l.get? j := by
  intro l
  induction l with
  | nil => intro i j _; rfl
  | cons x t ih =>
    intro i j hj
    cases i with
    | zero => exact absurd hj (by omega)
    | succ i' =>
      cases j with
      | zero => rfl
      | succ j' => exact ih i' j' (by omega)

theorem get?_eraseIdx_ge {α : Type} : ∀ (l : List α) (i j : Nat), i ≤ j →
    (l.eraseIdx i).get? j = l.get? (j + 1) := by
  intro l
  induction l with
  | nil => intro i j _; rfl
  | cons x t ih =>
    intro i j hij
    cases i with
    | zero => rfl
    | succ i' =>
      cases j with
      | zero => exact absurd hij (by omega)
      | succ j' => exact ih i' j' (by omega)

theorem colIdx_ne_none_of_mem : ∀ (l : List String) (c : String),
    c ∈ l → colIdx l c ≠ none := by
  intro l
  induction l with
  | nil => intro c h; exact absurd h (by simp)
  | cons h t ih =>
    intro c hc hnone
    by_cases he : h = c
    · rw [colIdx, if_pos he] at hnone
      exact absurd hnone (by simp)
    · rw [colIdx, if_neg he] at hnone
      rcases List.mem_cons.mp hc with rfl | ht
      · exact he rfl
      · cases hcolt : colIdx t c with
        | none => exact ih c ht hcolt
        | some j =>
          rw [hcolt] at hnone
          exact absurd hnone (by simp)

theorem lookup_erase (header : List String) (row : List Value) (i : Nat)
    (hdr : header.get? i = some "topics") (c : String) (hc : c ≠ "topics") :
    lookupCell (header.eraseIdx i) (row.eraseIdx i) c =
      lookupCell header row c := by
  unfold lookupCell
  cases hcol : colIdx header c with
  | none =>
    have hnm : c ∉ header := fun hm => colIdx_ne_none_of_mem header c hm hcol
    have : c ∉ header.eraseIdx i := fun hm => hnm (mem_of_mem_erase header i c hm)
    rw [colIdx_eq_none (header.eraseIdx i) c this]
    rfl
  | some j =>
    have hj : header.get? j = some c := colIdx_get header c j hcol
    have hji : j ≠ i := by
      intro e
      rw [e, hdr] at hj
      exact hc (Option.some.inj hj).symm
    rcases Nat.lt_or_ge j i with hlt | hge
    · rw [colIdx_erase_lt header c i j hcol hlt]
      simp only [Option.bind_eq_bind, Option.some_bind]
      exact get?_eraseIdx_lt row i j hlt
    · have hgt : i < j := by omega
      rw [colIdx_erase_gt header c i j hcol hgt]
      simp only [Option.bind_eq_bind, Option.some_bind]
      rw [get?_eraseIdx_ge row i (j - 1) (by omega)]
      have : j - 1 + 1 = j := by omega
      rw [this]

/-- C2: exporting a topic subset from a table with a single `topics`
column succeeds, the result has no `topics` column, its rows are
exactly the rows whose `topics` cell belongs to the selected ids (in
original relative order, with the `topics` cell removed), and every
attribute other than `topics` is looked up unchanged on each row. -/
theorem topic_export_exact (selected : List Int) (df : DataFrame) (i : Nat)
    (hidx : colIdx df.header "topics" = some i)
    (honce : "topics" ∉ df.header.eraseIdx i) :
    ∃ out, topic_aggregation selected df = some out ∧
      "topics" ∉ out.header ∧
      out.rows = (df.rows.filter (rowTopicSel selected i)).map
        (fun r => r.eraseIdx i) ∧
      ∀ (r : List Value) (c : String), c ≠ "topics" →
        lookupCell out.header (r.eraseIdx i) c = lookupCell df.header r c := by
  refine ⟨⟨df.header.eraseIdx i,
    (df.rows.filter (rowTopicSel selected i)).map (fun r => r.eraseIdx i)⟩,
    ?_, honce, rfl, ?_⟩
  · unfold topic_aggregation
    rw [hidx]
  · intro r c hc
    exact lookup_erase df.header r i (colIdx_get df.header "topics" i hidx) c hc

/-- Witness for C2 at the spec's export scenario: topics `{1, 3}` from
five rows labeled `[1, 2, 3, 1, 2]` keep rows 0, 2 and 3 and drop the
`topics` column. -/
theorem topic_export_exact_witness :
    (colIdx (DataFrame.mk ["comment", "topics"]
        [[Value.str "a".data, Value.int 1], [Value.str "b".data, Value.int 2],
         [Value.str "c".data, Value.int 3], [Value.str "d".data, Value.int 1],
         [Value.str "e".data, Value.int 2]]).header "topics" = some 1) ∧
    ∃ out, topic_aggregation [1, 3] ⟨["comment", "topics"],
        [[Value.str "a".data, Value.int 1], [Value.str "b".data, Value.int 2],
         [Value.str "c".data, Value.int 3], [Value.str "d".data, Value.int 1],
         [Value.str "e".data, Value.int 2]]⟩ = some out ∧
      "topics" ∉ out.header ∧
      out.rows = ((DataFrame.mk ["comment", "topics"]
        [[Value.str "a".data, Value.int 1], [Value.str "b".data, Value.int 2],
         [Value.str "c".data, Value.int 3], [Value.str "d".data, Value.int 1],
         [Value.str "e".data, Value.int 2]]).rows.filter
          (rowTopicSel [1, 3] 1)).map (fun r => r.eraseIdx 1) ∧
      ∀ (r : List Value) (c : String), c ≠ "topics" →
        lookupCell out.header (r.eraseIdx 1) c =
          lookupCell ["comment", "topics"] r c :=
  ⟨by decide,
    topic_export_exact [1, 3] ⟨["comment", "topics"],
      [[Value.str "a".data, Value.int 1], [Value.str "b".data, Value.int 2],
       [Value.str "c".data, Value.int 3], [Value.str "d".data, Value.int 1],
       [Value.str "e".data, Value.int 2]]⟩ 1 (by decide) (by decide)⟩

/-! ### Session phases and the export guard -/

/-- Counterexample to C9: in the `Training` phase (status string
`"Model is training..."`), with the topic-labeled table of a previous
run still held, the subset-export operation proceeds and returns the
exported table — it signals no error and never consults the phase. -/
theorem subset_export_ignores_phase :
    csv_subset ⟨SessionPhase.Training,
        some ⟨["comment", "topics"], [[Value.str "a".data, Value.int 1]]⟩⟩ [1] =
      .ok ⟨["comment"], [[Value.str "a".data]]⟩ := by
  decide

/-- C9 as amended: no operation signals an `InvalidStateError` (no
such error exists in the program).  The subset-export operation
(`_csv_subset`) is not phase-guarded: its outcome never depends on the
session phase, only on the held topic-labeled table — `AttributeError`
when none is held, otherwise it proceeds, even in
`Idle`/`Training`/`Failed`.  The view operations are gated only by
their buttons: `_update_button_states` maps every status string other
than `"Model training done."` to `"disabled"`, but it runs only at
widget creation and on training completion, so the `Training` phase
entered after a successful run leaves the view buttons `"normal"` and
those operations, too, remain invocable outside `Ready`. -/
theorem phase_guard_amended :
    (∀ (p p' : SessionPhase) (d : Option DataFrame) (sel : List Int),
      csv_subset ⟨p, d⟩ sel = csv_subset ⟨p', d⟩ sel) ∧
    (∀ (s : Session) (sel : List Int), s.df = none →
      csv_subset s sel = .error .attributeError) ∧
    (∀ (df out : DataFrame) (sel : List Int),
      topic_aggregation sel df = some out →
      csv_subset ⟨SessionPhase.Training, some df⟩ sel = .ok out) ∧
    (∀ status : String, status ≠ "Model training done." →
      update_button_states status = "disabled") ∧
    (∀ df : DataFrame,
      uiRun [UIEvent.trainingDone df, UIEvent.runModel] =
        ⟨statusOf SessionPhase.Training, "normal", some df⟩) := by
  refine ⟨?_, ?_, ?_, ?_, ?_⟩
  · intro p p' d sel
    rfl
  · intro s sel h
    obtain ⟨p, d⟩ := s
    obtain rfl : d = none := h
    rfl
  · intro df out sel h
    simp only [csv_subset]
    rw [h]
  · intro status h
    unfold update_button_states
    rw [if_neg h]
  · intro df
    rfl

/-- Witness for the amended C9: export fails with `AttributeError` in
`Idle` with no table but proceeds in `Training` with a stale table;
the status of `Idle` maps to disabled buttons, while the run
"train successfully, then click train again" reaches `Training` with
the view buttons still `"normal"`. -/
theorem phase_guard_amended_witness :
    csv_subset ⟨SessionPhase.Idle, none⟩ [1] = .error .attributeError ∧
    csv_subset ⟨SessionPhase.Training,
        some ⟨["comment", "topics"], [[Value.str "b".data, Value.int 1]]⟩⟩
        [1] = .ok ⟨["comment"], [[Value.str "b".data]]⟩ ∧
    update_button_states (statusOf SessionPhase.Idle) = "disabled" ∧
    uiRun [UIEvent.trainingDone
        ⟨["comment", "topics"], [[Value.str "b".data, Value.int 1]]⟩,
        UIEvent.runModel] =
      ⟨statusOf SessionPhase.Training, "normal",
        some ⟨["comment", "topics"], [[Value.str "b".data, Value.int 1]]⟩⟩ :=
  ⟨phase_guard_amended.2.1 ⟨SessionPhase.Idle, none⟩ [1] rfl,
    phase_guard_amended.2.2.1
      ⟨["comment", "topics"], [[Value.str "b".data, Value.int 1]]⟩
      ⟨["comment"], [[Value.str "b".data]]⟩ [1] (by decide),
    phase_guard_amended.2.2.2.1 (statusOf SessionPhase.Idle) (by decide),
    phase_guard_amended.2.2.2.2
      ⟨["comment", "topics"], [[Value.str "b".data, Value.int 1]]⟩⟩

end WorkCulture
